import Mathlib

/-!
Verification of the ingredient-matching and ranking engine of the
ShelfCook backend (GraphQL recipe resolvers).

Strings are modelled as lists of characters (`Str`).  The repository
contains three resolver generations; definitions carry a suffix naming
their source file:
  * `_p1`  : src/unnamed/part_001 (the resolver generation with global
             digit and unit stripping),
  * `_p0`  : src/unnamed/part_000 (the generation with empty-input
             guards and an anchored quantity regex),
  * `_res` : src/lib/graphql/resolvers.ts (the generation with an
             anchored quantity regex, a bidirectional substring test in
             the percentage scorer, and raw-line exact matching).

JavaScript regular-expression passes are embedded as fuel-based
left-to-right scans; the fuel is the length of the scanned list, which
suffices because every match consumes at least one character.  The
whitespace class and trim are modelled on the four ASCII whitespace
characters, and String.prototype.toLowerCase on `Char.toLower`; all
concrete inputs considered are ASCII apart from fraction glyphs, on
which both agree.
-/

abbrev Str := List Char

/-- Whitespace characters recognised by the embedded regex scans. -/
def isSp (c : Char) : Bool :=
  c == ' ' || c == '\t' || c == '\n' || c == '\r'

/-- Lowercasing of a string, one character at a time. -/
def lowerStr (s : Str) : Str := s.map Char.toLower

/-- JavaScript substring containment: `s.includes(sub)`. -/
def containsSub (s sub : Str) : Bool :=
  s.tails.any (fun t => sub.isPrefixOf t)

/-- Character class of the digit-stripping regex of part_001:
plain digits plus the fraction glyphs listed in its character class. -/
def digitClass (c : Char) : Bool :=
  c.isDigit ||
    (['½', '¼', '¾', '⅓', '⅔', '⅕', '⅖', '⅗', '⅘', '⅙', '⅚', '⅛', '⅜',
      '⅝', '⅞'].contains c)

/-- Lazy parenthetical match: given the characters after an opening
parenthesis, returns the remainder after the first closing parenthesis,
provided no newline intervenes (the dot of the regex does not match
newlines). -/
def parenMatch (rest : Str) : Option Str :=
  match rest.drop
      (rest.takeWhile (fun c => !(c == ')' || c == '\n' || c == '\r'))).length with
  | ')' :: after => some after
  | _ => none

/-- Scan for the replacement of every lazy parenthetical group by the
empty string, as in the part_001 normalizer. -/
def removeParensGo : Nat → Str → Str
  | 0, s => s
  | fuel + 1, s =>
    match s with
    | [] => []
    | c :: rest =>
      if c = '(' then
        match parenMatch rest with
        | some after => removeParensGo fuel after
        | none => c :: removeParensGo fuel rest
      else c :: removeParensGo fuel rest

def removeParens (s : Str) : Str := removeParensGo s.length s

/-- The unit vocabulary of the part_001 normalizer, in the order of the
alternation of its unit regex. -/
def unitAlts_p1 : List Str :=
  ["g", "kg", "ml", "l", "oz", "lb", "tbsp", "tsp", "cup", "cups",
   "pinch", "handful", "clove", "large", "medium", "small", "can",
   "cans"].map String.data

/-- One attempted match of the part_001 unit regex at the current
position: optional whitespace, then the first alternative that is a
prefix of what follows, then optional whitespace.  Returns the
remainder after the match. -/
def unitMatch_p1 (s : Str) : Option Str :=
  match unitAlts_p1.find? (fun u => u.isPrefixOf (s.dropWhile isSp)) with
  | some u => some (((s.dropWhile isSp).drop u.length).dropWhile isSp)
  | none => none

/-- Scan replacing every match of the part_001 unit regex by a single
space. -/
def stripUnitsGo : Nat → Str → Str
  | 0, s => s
  | fuel + 1, s =>
    match s with
    | [] => []
    | c :: rest =>
      match unitMatch_p1 (c :: rest) with
      | some r => ' ' :: stripUnitsGo fuel r
      | none => c :: stripUnitsGo fuel rest

def stripUnits_p1 (s : Str) : Str := stripUnitsGo s.length s

/-- Scan collapsing every whitespace run to a single space. -/
def collapseWsGo : Nat → Str → Str
  | 0, s => s
  | fuel + 1, s =>
    match s with
    | [] => []
    | c :: rest =>
      if isSp c then ' ' :: collapseWsGo fuel (rest.dropWhile isSp)
      else c :: collapseWsGo fuel rest

def collapseWs (s : Str) : Str := collapseWsGo s.length s

/-- JavaScript String.prototype.trim on the modelled whitespace class. -/
def trimStr (s : Str) : Str :=
  ((s.dropWhile isSp).reverse.dropWhile isSp).reverse

/-- One line of the part_001 ingredient normalizer: lowercase, drop
parentheticals, keep the part before the first comma, delete digit and
fraction characters everywhere, replace unit words by spaces, delete
asterisks, trim, collapse whitespace. -/
def cleanLine_p1 (line : Str) : Str :=
  let s1 := lowerStr line
  let s2 := removeParens s1
  let s3 := s2.takeWhile (fun c => c != ',')
  let s4 := s3.filter (fun c => !digitClass c)
  let s5 := stripUnits_p1 s4
  let s6 := s5.filter (fun c => c != '*')
  collapseWs (trimStr s6)

/-- extractIngredientNames of part_001. -/
def extractIngredientNames_p1 (ingredients : List Str) : List Str :=
  (ingredients.map cleanLine_p1).filter (fun t => !t.isEmpty)

/-- Whole words of a string: maximal runs of non-whitespace characters. -/
def wordsOf (s : Str) : List Str :=
  (List.splitOnP isSp s).filter (fun w => !w.isEmpty)

/-- Remainder after the first alternative of `alts` that is a prefix of
`t`, in order; regex alternation takes the first alternative that
matches. -/
def prefixAlt (alts : List Str) (t : Str) : Option Str :=
  match alts.find? (fun u => u.isPrefixOf t) with
  | some u => some (t.drop u.length)
  | none => none

/-- The twelve-unit alternation of the anchored quantity regex of
resolvers.ts. -/
def unitAlts_res12 : List Str :=
  ["g", "kg", "ml", "l", "oz", "lb", "tbsp", "tsp", "cup", "cups",
   "pinch", "handful"].map String.data

/-- The six-unit alternation of the optional trailing group of the same
regex. -/
def unitAlts_res6 : List Str :=
  ["g", "kg", "ml", "l", "oz", "lb"].map String.data

/-- Optional decimal part: consumes a dot followed by at least one
digit, as the group (backslash-dot digits) does; otherwise consumes
nothing. -/
def dropDecimalPart (r : Str) : Str :=
  match r with
  | '.' :: rest =>
    if (rest.takeWhile Char.isDigit).isEmpty then r
    else rest.dropWhile Char.isDigit
  | _ => r

/-- The anchored quantity-and-unit regex of resolvers.ts: leading
digits, optional decimals, whitespace, a required unit from the twelve
alternatives, then optional slash, digits and a second unit, each
surrounded by optional whitespace.  If the leading digits or the
required unit are absent the whole regex fails and the string is
unchanged. -/
def stripQtyUnit_res (s : Str) : Str :=
  if (s.takeWhile Char.isDigit).isEmpty then s
  else
    let r3 := (dropDecimalPart (s.dropWhile Char.isDigit)).dropWhile isSp
    match prefixAlt unitAlts_res12 r3 with
    | none => s
    | some r4 =>
      let r5 := r4.dropWhile isSp
      let r6 := match r5 with
                | '/' :: t => t
                | _ => r5
      let r8 := ((r6.dropWhile isSp).dropWhile Char.isDigit).dropWhile isSp
      let r9 := match prefixAlt unitAlts_res6 r8 with
                | some t => t
                | none => r8
      r9.dropWhile isSp

/-- The second anchored regex of resolvers.ts: leading digits and
following whitespace. -/
def stripLeadDigits (s : Str) : Str :=
  if (s.takeWhile Char.isDigit).isEmpty then s
  else (s.dropWhile Char.isDigit).dropWhile isSp

/-- Replacement of the first comma and everything after it to the end
of the string by nothing.  The dot of the regex does not cross
newlines and the anchor matches only the end of the string, so a comma
only matches when no newline follows it. -/
def removeCommaTail : Str → Str
  | [] => []
  | c :: rest =>
    if c == ',' && rest.all (fun d => !(d == '\n' || d == '\r')) then []
    else c :: removeCommaTail rest

/-- One line of the resolvers.ts ingredient normalizer: lowercase,
anchored quantity-and-unit strip, anchored digit strip, comma-tail
removal, parenthetical removal, trim, and fallback to the lowercased
raw line when the result is empty. -/
def cleanLine_res (line : Str) : Str :=
  let low := lowerStr line
  let s1 := stripQtyUnit_res low
  let s2 := stripLeadDigits s1
  let s3 := removeCommaTail s2
  let s4 := removeParens s3
  let s5 := trimStr s4
  if s5.isEmpty then low else s5

/-- extractIngredientNames of resolvers.ts. -/
def extractIngredientNames_res (ingredients : List Str) : List Str :=
  (ingredients.map cleanLine_res).filter (fun t => !t.isEmpty)

/-- The sixteen-unit optional alternation of the anchored regex of
part_000. -/
def unitAlts_p0_16 : List Str :=
  ["g", "kg", "ml", "l", "oz", "lb", "tbsp", "tsp", "cup", "cups",
   "pinch", "handful", "clove", "large", "medium", "small"].map
    String.data

/-- The anchored quantity regex of part_000: leading digits, optional
decimals, whitespace, an optional unit from the sixteen alternatives,
trailing whitespace.  Without leading digits the regex fails. -/
def stripQtyUnit_p0 (s : Str) : Str :=
  if (s.takeWhile Char.isDigit).isEmpty then s
  else
    let r3 := (dropDecimalPart (s.dropWhile Char.isDigit)).dropWhile isSp
    let r4 := match prefixAlt unitAlts_p0_16 r3 with
              | some t => t
              | none => r3
    r4.dropWhile isSp

/-- One line of the part_000 ingredient normalizer: lowercase, anchored
quantity strip, parenthetical removal, keep the part before the first
comma, trim. -/
def cleanLine_p0 (line : Str) : Str :=
  let s1 := stripQtyUnit_p0 (lowerStr line)
  let s2 := removeParens s1
  trimStr (s2.takeWhile (fun c => c != ','))

/-- extractIngredientNames of part_000. -/
def extractIngredientNames_p0 (ingredients : List Str) : List Str :=
  (ingredients.map cleanLine_p0).filter (fun t => !t.isEmpty)

/-- A recipe, restricted to the fields the matching engine reads. -/
structure Recipe where
  id : Nat
  ingredients : List Str
  vegan : Bool
  categories : List Str
deriving DecidableEq

/-- The optional query filters (absent field means no constraint). -/
structure RecipeFilters where
  vegan : Option Bool
  categories : Option (List Str)
deriving DecidableEq

/-- The scored object produced by the percentage scorer. -/
structure MatchResult where
  recipe : Recipe
  matchPercentage : Int
  matchingIngredientsCount : Nat
  totalIngredientsCount : Nat
  missingIngredients : List Str
deriving DecidableEq

/-- Math.round((m / t) * 100) computed exactly: for t > 0 the natural
division (200 * m + t) / (2 * t) equals the floor of 100 * m / t + 1 / 2,
which is round-half-up of the exact rational 100 * m / t; for t = 0 it
is 0.  The agreement with the rounded rational is proved below in
mpRound_eq_round. -/
def mpRound (m t : Nat) : Int := ((200 * m + t) / (2 * t) : Nat)

/-- Evaluation, on one recipe, of the where clause produced by
buildPrismaWhereClause (shared by all three generations): conjunction
of an equality test on vegan when the filter field is a boolean, and a
hasSome test on categories when the filter field is a non-empty list. -/
def prismaWhereKeep (filters : Option RecipeFilters) (r : Recipe) : Bool :=
  match filters with
  | none => true
  | some f =>
    (match f.vegan with
     | none => true
     | some b => r.vegan == b) &&
    (match f.categories with
     | none => true
     | some cats =>
       if cats.isEmpty then true
       else cats.any (fun c => r.categories.contains c))

/-- availableLower.some(avail => req.includes(avail)), the substring
test of the part_001 and part_000 scorers. -/
def reqMatched (available : List Str) (req : Str) : Bool :=
  (available.map lowerStr).any (fun avail => containsSub req avail)

/-- The bidirectional substring test of the resolvers.ts scorer. -/
def reqMatched_res (available : List Str) (ing : Str) : Bool :=
  available.any (fun a =>
    containsSub (lowerStr ing) (lowerStr a) ||
      containsSub (lowerStr a) (lowerStr ing))

def missingIngredients_p1 (available : List Str) (r : Recipe) : List Str :=
  (extractIngredientNames_p1 r.ingredients).filter
    (fun req => !reqMatched available req)

def matchingCount_p1 (available : List Str) (r : Recipe) : Nat :=
  (extractIngredientNames_p1 r.ingredients).length -
    (missingIngredients_p1 available r).length

/-- The per-recipe body of recipesByIngredientMatch in part_001. -/
def score_p1 (available : List Str) (r : Recipe) : MatchResult :=
  if extractIngredientNames_p1 r.ingredients = [] then
    { recipe := r, matchPercentage := 0, matchingIngredientsCount := 0,
      totalIngredientsCount := 0, missingIngredients := [] }
  else
    { recipe := r
      matchPercentage := mpRound (matchingCount_p1 available r)
        (extractIngredientNames_p1 r.ingredients).length
      matchingIngredientsCount := matchingCount_p1 available r
      totalIngredientsCount := (extractIngredientNames_p1 r.ingredients).length
      missingIngredients := missingIngredients_p1 available r }

def missingIngredients_res (available : List Str) (r : Recipe) : List Str :=
  (extractIngredientNames_res r.ingredients).filter
    (fun ing => !reqMatched_res available ing)

def matchingCount_res (available : List Str) (r : Recipe) : Nat :=
  (extractIngredientNames_res r.ingredients).length -
    (missingIngredients_res available r).length

/-- The per-recipe body of recipesByIngredientMatch in resolvers.ts. -/
def score_res (available : List Str) (r : Recipe) : MatchResult :=
  { recipe := r
    matchPercentage :=
      if 0 < (extractIngredientNames_res r.ingredients).length then
        mpRound (matchingCount_res available r)
          (extractIngredientNames_res r.ingredients).length
      else 0
    matchingIngredientsCount := matchingCount_res available r
    totalIngredientsCount := (extractIngredientNames_res r.ingredients).length
    missingIngredients := missingIngredients_res available r }

def missingIngredients_p0 (available : List Str) (r : Recipe) : List Str :=
  (extractIngredientNames_p0 r.ingredients).filter
    (fun req => !reqMatched available req)

def matchingCount_p0 (available : List Str) (r : Recipe) : Nat :=
  (extractIngredientNames_p0 r.ingredients).length -
    (missingIngredients_p0 available r).length

/-- The per-recipe body of recipesByIngredientMatch in part_000. -/
def score_p0 (available : List Str) (r : Recipe) : MatchResult :=
  if extractIngredientNames_p0 r.ingredients = [] then
    { recipe := r, matchPercentage := 0, matchingIngredientsCount := 0,
      totalIngredientsCount := 0, missingIngredients := [] }
  else
    { recipe := r
      matchPercentage := mpRound (matchingCount_p0 available r)
        (extractIngredientNames_p0 r.ingredients).length
      matchingIngredientsCount := matchingCount_p0 available r
      totalIngredientsCount := (extractIngredientNames_p0 r.ingredients).length
      missingIngredients := missingIngredients_p0 available r }

/-- Descending stable insertion: the new element is placed before the
first element whose matchPercentage is not greater.  This realises the
stable sort with comparator (a, b) => b.matchPercentage -
a.matchPercentage. -/
def insertDesc (x : MatchResult) : List MatchResult → List MatchResult
  | [] => [x]
  | y :: ys =>
    if y.matchPercentage ≤ x.matchPercentage then x :: y :: ys
    else y :: insertDesc x ys

def sortByMatchDesc (l : List MatchResult) : List MatchResult :=
  l.foldr insertDesc []

/-- The ranking stage shared by the percentage strategies: keep the
scores at or above the threshold, then sort by matchPercentage
descending.  Array.prototype.sort is stable (ECMAScript 2019) and the
comparator orders by descending percentage, so the sort is modelled by
a stable descending insertion sort. -/
def rank (l : List MatchResult) (minMatchPercentage : Int) : List MatchResult :=
  sortByMatchDesc
    (l.filter (fun s => decide (minMatchPercentage ≤ s.matchPercentage)))

/-- recipesByIngredientMatch of part_001, over a store modelled as the
full recipe list; the Boolean records whether the store was queried.
This resolver has no empty-input guard: it always runs findMany. -/
def recipesByIngredientMatch_p1 (db : List Recipe)
    (filters : Option RecipeFilters) (available : List Str)
    (minMatchPercentage : Int) : List MatchResult × Bool :=
  (rank ((db.filter (prismaWhereKeep filters)).map (score_p1 available))
      minMatchPercentage,
    true)

/-- recipesByIngredientMatch of part_000: an empty availableIngredients
list short-circuits to the empty result before findMany runs. -/
def recipesByIngredientMatch_p0 (db : List Recipe)
    (filters : Option RecipeFilters) (available : List Str)
    (minMatchPercentage : Int) : List MatchResult × Bool :=
  if available = [] then ([], false)
  else
    (rank ((db.filter (prismaWhereKeep filters)).map (score_p0 available))
        minMatchPercentage,
      true)

/-- The per-recipe predicate of recipesWithExactIngredients in
part_001: normalized ingredients, empty-required recipes rejected,
every requirement met by some available term. -/
def exactPred_p1 (available : List Str) (r : Recipe) : Bool :=
  if extractIngredientNames_p1 r.ingredients = [] then false
  else (extractIngredientNames_p1 r.ingredients).all
    (fun req => reqMatched available req)

def recipesWithExactIngredients_p1 (db : List Recipe)
    (filters : Option RecipeFilters) (available : List Str) : List Recipe :=
  (db.filter (prismaWhereKeep filters)).filter (exactPred_p1 available)

/-- The per-recipe predicate of recipesWithExactIngredients in
resolvers.ts: every raw ingredient line, lowercased, contains some
available term; no normalization and no empty-ingredient check. -/
def exactPred_res (available : List Str) (r : Recipe) : Bool :=
  r.ingredients.all (fun line =>
    available.any (fun a => containsSub (lowerStr line) (lowerStr a)))

def recipesWithExactIngredients_res (db : List Recipe)
    (filters : Option RecipeFilters) (available : List Str) : List Recipe :=
  (db.filter (prismaWhereKeep filters)).filter (exactPred_res available)

/-- veganMatch of the part_001 full-text post-retrieval pass:
!filters?.vegan || recipe.vegan === filters.vegan.  The optional
chaining yields undefined when filters or the field is absent, and
undefined and false are both falsy, so a false filter value makes the
left disjunct true. -/
def veganMatch_p1 (filters : Option RecipeFilters) (r : Recipe) : Bool :=
  match filters with
  | none => true
  | some f =>
    match f.vegan with
    | none => true
    | some b => !b || (r.vegan == b)

/-- categoryMatch of the part_001 full-text pass:
!filters?.categories || filters.categories.some(shared).  An array is
always truthy in JavaScript, so a present empty list still requires a
shared category. -/
def categoryMatch_p1 (filters : Option RecipeFilters) (r : Recipe) : Bool :=
  match filters with
  | none => true
  | some f =>
    match f.categories with
    | none => true
    | some cats => cats.any (fun c => r.categories.contains c)

/-- The in-memory filter pass of recipesWithFullTextSearch in part_001,
applied to the rows the store returned for the text-relevance query. -/
def fullTextFilterPass_p1 (retrieved : List Recipe)
    (filters : Option RecipeFilters) : List Recipe :=
  retrieved.filter (fun r => veganMatch_p1 filters r && categoryMatch_p1 filters r)

/-- The per-recipe filter of quickRecipeSuggestions in part_001: some
normalized ingredient contains some available term. -/
def hasQuickMatch_p1 (available : List Str) (r : Recipe) : Bool :=
  (extractIngredientNames_p1 r.ingredients).any (fun ing =>
    (available.map lowerStr).any (fun avail => containsSub ing avail))

/-- The candidates of quickRecipeSuggestions that survive the
ingredient filter, in store order. -/
def quickMatched_p1 (db : List Recipe) (filters : Option RecipeFilters)
    (available : List Str) : List Recipe :=
  (db.filter (prismaWhereKeep filters)).filter (hasQuickMatch_p1 available)

/-- JavaScript limit || 10: null, undefined and 0 all fall back to the
default. -/
def jsOrInt (v : Option Int) (d : Int) : Int :=
  match v with
  | none => d
  | some n => if n = 0 then d else n

/-- JavaScript Array.prototype.slice(0, n): a nonnegative bound takes a
prefix, a negative bound counts from the end. -/
def jsSliceTo {α : Type} (l : List α) (n : Int) : List α :=
  if 0 ≤ n then l.take n.toNat else l.take (l.length - (-n).toNat)

/-- quickRecipeSuggestions of part_001. -/
def quickRecipeSuggestions_p1 (db : List Recipe)
    (filters : Option RecipeFilters) (available : List Str)
    (limit : Option Int) : List Recipe :=
  jsSliceTo (quickMatched_p1 db filters available) (jsOrInt limit 10)

/-- Concrete recipe with one ingredient line reading onion. -/
def rOnion : Recipe :=
  { id := 1, ingredients := ["onion".data], vegan := false, categories := [] }

/-- Concrete recipe whose single line is pepper comma ground. -/
def rPepperGround : Recipe :=
  { id := 2, ingredients := ["pepper, ground".data], vegan := false,
    categories := [] }

/-- Concrete recipe with one ingredient line reading salt. -/
def rSalt : Recipe :=
  { id := 3, ingredients := ["salt".data], vegan := false, categories := [] }

/-- Concrete vegan recipe used for the full-text filter evaluation. -/
def rVeganTrue : Recipe :=
  { id := 4, ingredients := ["tofu".data], vegan := true, categories := [] }

theorem mpRound_self (t : Nat) (ht : 0 < t) : mpRound t t = 100 := by
  unfold mpRound
  have hNat : (200 * t + t) / (2 * t) = 100 :=
    Nat.div_eq_of_lt_le (by omega) (by omega)
  rw [hNat]
  rfl

theorem length_filter_mono {α : Type} (l : List α) (p q : α → Bool)
    (h : ∀ a ∈ l, p a = true → q a = true) :
    (l.filter p).length ≤ (l.filter q).length := by
  induction l with
  | nil => simp
  | cons a l ih =>
    have ih' := ih fun b hb => h b (List.mem_cons_of_mem a hb)
    by_cases hp : p a = true
    · have hq := h a (List.mem_cons_self a l) hp
      simp only [List.filter_cons, hp, hq, if_true]
      simpa using ih'
    · have hp' : p a = false := Bool.eq_false_iff.mpr hp
      by_cases hq : q a = true
      · simp only [List.filter_cons, hp', hq, if_true, Bool.false_eq_true,
          if_false]
        exact ih'.trans (by simp)
      · have hq' : q a = false := Bool.eq_false_iff.mpr hq
        simpa [List.filter_cons, hp', hq'] using ih'

theorem containsSub_cons {a : Char} {rest u : Str}
    (h : containsSub rest u = true) : containsSub (a :: rest) u = true := by
  unfold containsSub at h ⊢
  rw [List.any_eq_true] at h ⊢
  obtain ⟨t, ht, hp⟩ := h
  refine ⟨t, ?_, hp⟩
  rw [List.tails_cons]
  exact List.mem_cons_of_mem _ ht

theorem suffix_of_unitMatch {s r : Str} (h : unitMatch_p1 s = some r) :
    r <:+ s := by
  unfold unitMatch_p1 at h
  split at h
  case h_1 u heq =>
    injection h with h
    subst h
    exact (List.dropWhile_suffix _).trans
      ((List.drop_suffix _ _).trans (List.dropWhile_suffix _))
  case h_2 => cases h

theorem unitMatch_gives_unit {s r : Str} (h : unitMatch_p1 s = some r) :
    ∃ u ∈ unitAlts_p1, containsSub s u = true := by
  unfold unitMatch_p1 at h
  split at h
  case h_1 u heq =>
    refine ⟨u, List.mem_of_find?_eq_some heq, ?_⟩
    have hpre := List.find?_some heq
    unfold containsSub
    rw [List.any_eq_true]
    exact ⟨s.dropWhile isSp,
      (List.mem_tails _ _).mpr (List.dropWhile_suffix _), hpre⟩
  case h_2 => cases h

theorem mem_stripUnitsGo (fuel : Nat) : ∀ (s : Str) (c : Char),
    c ∈ stripUnitsGo fuel s → c ∈ s ∨ c = ' ' := by
  induction fuel with
  | zero => intro s c h; exact Or.inl h
  | succ f ih =>
    intro s c h
    cases s with
    | nil => cases h
    | cons a rest =>
      simp only [stripUnitsGo] at h
      cases hm : unitMatch_p1 (a :: rest) with
      | some r =>
        rw [hm] at h
        rcases List.mem_cons.mp h with hc | hc
        · exact Or.inr hc
        · rcases ih r c hc with h' | h'
          · exact Or.inl ((suffix_of_unitMatch hm).subset h')
          · exact Or.inr h'
      | none =>
        rw [hm] at h
        rcases List.mem_cons.mp h with hc | hc
        · exact Or.inl (List.mem_cons.mpr (Or.inl hc))
        · rcases ih rest c hc with h' | h'
          · exact Or.inl (List.mem_cons_of_mem a h')
          · exact Or.inr h'

theorem stripUnitsGo_id (fuel : Nat) : ∀ s : Str,
    (∀ u ∈ unitAlts_p1, containsSub s u = false) →
    stripUnitsGo fuel s = s := by
  induction fuel with
  | zero => intro s _; rfl
  | succ f ih =>
    intro s hno
    cases s with
    | nil => rfl
    | cons a rest =>
      have hnone : unitMatch_p1 (a :: rest) = none := by
        cases hm : unitMatch_p1 (a :: rest) with
        | none => rfl
        | some r =>
          obtain ⟨u, hu, hc⟩ := unitMatch_gives_unit hm
          rw [hno u hu] at hc
          cases hc
      simp only [stripUnitsGo, hnone]
      have hrest : ∀ u ∈ unitAlts_p1, containsSub rest u = false := by
        intro u hu
        cases hcr : containsSub rest u with
        | false => rfl
        | true =>
          have h1 := containsSub_cons (a := a) hcr
          rw [hno u hu] at h1
          cases h1
      rw [ih rest hrest]

theorem suffix_of_parenMatch {rest after : Str}
    (h : parenMatch rest = some after) : after <:+ rest := by
  unfold parenMatch at h
  split at h
  case h_1 after' heq =>
    injection h with h
    have h1 : ')' :: after' <:+ rest := heq ▸ List.drop_suffix _ _
    rw [← h]
    exact (List.suffix_cons ')' after').trans h1
  case h_2 => cases h

theorem mem_removeParensGo (fuel : Nat) : ∀ (s : Str) (c : Char),
    c ∈ removeParensGo fuel s → c ∈ s := by
  induction fuel with
  | zero => intro s c h; exact h
  | succ f ih =>
    intro s c h
    cases s with
    | nil => cases h
    | cons a rest =>
      simp only [removeParensGo] at h
      by_cases ha : a = '('
      · rw [if_pos ha] at h
        cases hp : parenMatch rest with
        | some after =>
          rw [hp] at h
          exact List.mem_cons_of_mem a
            ((suffix_of_parenMatch hp).subset (ih after c h))
        | none =>
          rw [hp] at h
          rcases List.mem_cons.mp h with hc | hc
          · exact List.mem_cons.mpr (Or.inl hc)
          · exact List.mem_cons_of_mem a (ih rest c hc)
      · rw [if_neg ha] at h
        rcases List.mem_cons.mp h with hc | hc
        · exact List.mem_cons.mpr (Or.inl hc)
        · exact List.mem_cons_of_mem a (ih rest c hc)

theorem mem_collapseWsGo (fuel : Nat) : ∀ (s : Str) (c : Char),
    c ∈ collapseWsGo fuel s → c ∈ s ∨ c = ' ' := by
  induction fuel with
  | zero => intro s c h; exact Or.inl h
  | succ f ih =>
    intro s c h
    cases s with
    | nil => cases h
    | cons a rest =>
      simp only [collapseWsGo] at h
      by_cases ha : isSp a = true
      · rw [if_pos ha] at h
        rcases List.mem_cons.mp h with hc | hc
        · exact Or.inr hc
        · rcases ih _ c hc with h' | h'
          · exact Or.inl (List.mem_cons_of_mem a
              ((List.dropWhile_suffix _).subset h'))
          · exact Or.inr h'
      · rw [if_neg ha] at h
        rcases List.mem_cons.mp h with hc | hc
        · exact Or.inl (List.mem_cons.mpr (Or.inl hc))
        · rcases ih rest c hc with h' | h'
          · exact Or.inl (List.mem_cons_of_mem a h')
          · exact Or.inr h'

theorem mem_trimStr {s : Str} {c : Char} (h : c ∈ trimStr s) : c ∈ s := by
  unfold trimStr at h
  rw [List.mem_reverse] at h
  have h1 := (List.dropWhile_suffix (l := (s.dropWhile isSp).reverse) isSp).subset h
  rw [List.mem_reverse] at h1
  exact (List.dropWhile_suffix isSp).subset h1

theorem reqMatched_mono {A B : List Str} (hAB : A ⊆ B) (req : Str)
    (h : reqMatched A req = true) : reqMatched B req = true := by
  unfold reqMatched at h ⊢
  rw [List.any_eq_true] at h ⊢
  obtain ⟨a, ha, hc⟩ := h
  rw [List.mem_map] at ha
  obtain ⟨x, hx, rfl⟩ := ha
  exact ⟨lowerStr x, List.mem_map.mpr ⟨x, hAB hx, rfl⟩, hc⟩

theorem missing_anti {A B : List Str} (hAB : A ⊆ B) (r : Recipe) :
    (missingIngredients_p1 B r).length ≤ (missingIngredients_p1 A r).length := by
  unfold missingIngredients_p1
  apply length_filter_mono
  intro a _ hpB
  rw [Bool.not_eq_true'] at hpB ⊢
  cases hra : reqMatched A a with
  | false => rfl
  | true =>
    rw [reqMatched_mono hAB a hra] at hpB
    cases hpB

theorem reqMatched_res_mono {A B : List Str} (hAB : A ⊆ B) (ing : Str)
    (h : reqMatched_res A ing = true) : reqMatched_res B ing = true := by
  unfold reqMatched_res at h ⊢
  rw [List.any_eq_true] at h ⊢
  obtain ⟨a, ha, hc⟩ := h
  exact ⟨a, hAB ha, hc⟩

theorem missing_anti_res {A B : List Str} (hAB : A ⊆ B) (r : Recipe) :
    (missingIngredients_res B r).length ≤
      (missingIngredients_res A r).length := by
  unfold missingIngredients_res
  apply length_filter_mono
  intro a _ hpB
  rw [Bool.not_eq_true'] at hpB ⊢
  cases hra : reqMatched_res A a with
  | false => rfl
  | true =>
    rw [reqMatched_res_mono hAB a hra] at hpB
    cases hpB

/-- Claim C7: for a fixed recipe, enlarging the available set never
decreases the matching count, in the part_001 percentage scorer and in
the resolvers.ts percentage scorer with its bidirectional substring
test. -/
theorem c7_matchingCount_monotone (r : Recipe) (A B : List Str)
    (hAB : A ⊆ B) :
    ((score_p1 A r).matchingIngredientsCount ≤
      (score_p1 B r).matchingIngredientsCount) ∧
    ((score_res A r).matchingIngredientsCount ≤
      (score_res B r).matchingIngredientsCount) := by
  constructor
  · by_cases hreq : extractIngredientNames_p1 r.ingredients = []
    · simp [score_p1, hreq]
    · simp only [score_p1, if_neg hreq]
      unfold matchingCount_p1
      exact Nat.sub_le_sub_left (missing_anti hAB r) _
  · simp only [score_res]
    unfold matchingCount_res
    exact Nat.sub_le_sub_left (missing_anti_res hAB r) _

/-- Witness for claim C7 at a concrete recipe and a concrete pair of
available sets, for both scorers. -/
theorem c7_witness :
    (["onion".data] : List Str) ⊆ ["onion".data, "salt".data] ∧
    ((score_p1 ["onion".data] rOnion).matchingIngredientsCount ≤
      (score_p1 ["onion".data, "salt".data] rOnion).matchingIngredientsCount) ∧
    ((score_res ["onion".data] rOnion).matchingIngredientsCount ≤
      (score_res ["onion".data, "salt".data] rOnion).matchingIngredientsCount) :=
  ⟨by decide,
    (c7_matchingCount_monotone rOnion ["onion".data]
      ["onion".data, "salt".data] (by decide)).1,
    (c7_matchingCount_monotone rOnion ["onion".data]
      ["onion".data, "salt".data] (by decide)).2⟩

/-- Claim C2 (amended): in the part_001 generation, every recipe
returned by recipesWithExactIngredients scores exactly 100 under the
percentage scorer of the same generation with the same available set. -/
theorem c2_exact_implies_full_score (db : List Recipe)
    (filters : Option RecipeFilters) (available : List Str) (r : Recipe)
    (h : r ∈ recipesWithExactIngredients_p1 db filters available) :
    (score_p1 available r).matchPercentage = 100 := by
  unfold recipesWithExactIngredients_p1 at h
  have hpred := List.of_mem_filter h
  unfold exactPred_p1 at hpred
  by_cases hreq : extractIngredientNames_p1 r.ingredients = []
  · rw [if_pos hreq] at hpred
    cases hpred
  · rw [if_neg hreq] at hpred
    have hmiss : missingIngredients_p1 available r = [] := by
      unfold missingIngredients_p1
      rw [List.filter_eq_nil_iff]
      intro a ha
      have hm := List.all_eq_true.mp hpred a ha
      simp [hm]
    have hmc : matchingCount_p1 available r =
        (extractIngredientNames_p1 r.ingredients).length := by
      unfold matchingCount_p1
      rw [hmiss]
      simp
    simp only [score_p1, if_neg hreq]
    rw [hmc]
    exact mpRound_self _ (List.length_pos.mpr hreq)

/-- Witness for claim C2 at a concrete recipe that passes the part_001
exact-ingredient strategy. -/
theorem c2_witness :
    rSalt ∈ recipesWithExactIngredients_p1 [rSalt] none ["sa".data] ∧
    (score_p1 ["sa".data] rSalt).matchPercentage = 100 :=
  ⟨by decide,
    c2_exact_implies_full_score [rSalt] none ["sa".data] rSalt (by decide)⟩

/-- Counterexample to claim C2 as stated: in the resolvers.ts
generation the exact strategy tests the raw ingredient lines, so the
recipe with the single line pepper comma ground is returned for the
available set containing only ground, yet the percentage scorer of the
same file normalizes that line to pepper and scores it 0, not 100. -/
theorem c2_counterexample :
    rPepperGround ∈
      recipesWithExactIngredients_res [rPepperGround] none ["ground".data] ∧
    (score_res ["ground".data] rPepperGround).matchPercentage ≠ 100 :=
  ⟨by decide, by decide⟩

/-- Claim C4 (amended): the part_000 generation of
recipesByIngredientMatch short-circuits an empty availableIngredients
list to an empty result without querying the store. -/
theorem c4_empty_short_circuit_p0 (db : List Recipe)
    (filters : Option RecipeFilters) (minMatchPercentage : Int) :
    recipesByIngredientMatch_p0 db filters [] minMatchPercentage =
      ([], false) := rfl

/-- Counterexample to claim C4 as stated: the part_001 generation of
recipesByIngredientMatch has no empty-input guard; with an empty
available list and threshold 0 it queries the store and returns every
candidate, scored 0. -/
theorem c4_counterexample :
    (recipesByIngredientMatch_p1 [rOnion] none [] 0).1 ≠ [] ∧
    (recipesByIngredientMatch_p1 [rOnion] none [] 0).2 = true :=
  ⟨by decide, rfl⟩

theorem insertDesc_perm (x : MatchResult) (l : List MatchResult) :
    List.Perm (insertDesc x l) (x :: l) := by
  induction l with
  | nil => exact List.Perm.refl _
  | cons y ys ih =>
    unfold insertDesc
    by_cases h : y.matchPercentage ≤ x.matchPercentage
    · rw [if_pos h]
    · rw [if_neg h]
      exact (List.Perm.cons y ih).trans (List.Perm.swap x y ys)

theorem mem_insertDesc {z x : MatchResult} {l : List MatchResult}
    (h : z ∈ insertDesc x l) : z = x ∨ z ∈ l :=
  List.mem_cons.mp ((insertDesc_perm x l).mem_iff.mp h)

theorem sortByMatchDesc_perm (l : List MatchResult) :
    List.Perm (sortByMatchDesc l) l := by
  induction l with
  | nil => exact List.Perm.refl _
  | cons a l ih =>
    simp only [sortByMatchDesc, List.foldr_cons] at *
    exact (insertDesc_perm a _).trans (List.Perm.cons a ih)

theorem insertDesc_pairwise (x : MatchResult) (l : List MatchResult)
    (h : List.Pairwise
      (fun a b => b.matchPercentage ≤ a.matchPercentage) l) :
    List.Pairwise (fun a b => b.matchPercentage ≤ a.matchPercentage)
      (insertDesc x l) := by
  induction l with
  | nil => simp [insertDesc]
  | cons y ys ih =>
    rw [List.pairwise_cons] at h
    obtain ⟨hy, hys⟩ := h
    unfold insertDesc
    by_cases hcmp : y.matchPercentage ≤ x.matchPercentage
    · rw [if_pos hcmp, List.pairwise_cons]
      refine ⟨?_, ?_⟩
      · intro z hz
        rcases List.mem_cons.mp hz with rfl | hz'
        · exact hcmp
        · exact (hy z hz').trans hcmp
      · rw [List.pairwise_cons]
        exact ⟨hy, hys⟩
    · rw [if_neg hcmp, List.pairwise_cons]
      refine ⟨?_, ih hys⟩
      intro z hz
      rcases mem_insertDesc hz with rfl | hz'
      · exact le_of_lt (lt_of_not_le hcmp)
      · exact hy z hz'

theorem sortByMatchDesc_pairwise (l : List MatchResult) :
    List.Pairwise (fun a b => b.matchPercentage ≤ a.matchPercentage)
      (sortByMatchDesc l) := by
  induction l with
  | nil => simp [sortByMatchDesc]
  | cons a l ih =>
    simp only [sortByMatchDesc, List.foldr_cons] at *
    exact insertDesc_pairwise a _ ih

/-- Claim C5: the ranking stage returns exactly the scored entries at
or above the threshold (the threshold is inclusive), as a permutation
of the filtered input, and the output is sorted non-increasing by
matchPercentage. -/
theorem c5_rank_filter_sorted (l : List MatchResult) (minPct : Int) :
    List.Perm (rank l minPct)
      (l.filter (fun s => decide (minPct ≤ s.matchPercentage))) ∧
    List.Pairwise (fun a b => b.matchPercentage ≤ a.matchPercentage)
      (rank l minPct) :=
  ⟨sortByMatchDesc_perm _, sortByMatchDesc_pairwise _⟩

theorem filter_insertDesc (x : MatchResult) (l : List MatchResult)
    (k : Int) :
    (insertDesc x l).filter (fun s => decide (s.matchPercentage = k)) =
      if x.matchPercentage = k then
        x :: l.filter (fun s => decide (s.matchPercentage = k))
      else l.filter (fun s => decide (s.matchPercentage = k)) := by
  induction l with
  | nil => by_cases hx : x.matchPercentage = k <;> simp [insertDesc, hx]
  | cons y ys ih =>
    unfold insertDesc
    by_cases hcmp : y.matchPercentage ≤ x.matchPercentage
    · rw [if_pos hcmp]
      by_cases hx : x.matchPercentage = k <;>
        simp [List.filter_cons, hx]
    · rw [if_neg hcmp]
      have hlt : x.matchPercentage < y.matchPercentage :=
        lt_of_not_le hcmp
      by_cases hx : x.matchPercentage = k
      · have hy : ¬ y.matchPercentage = k := by omega
        simp [List.filter_cons, hy, hx, ih]
      · simp [List.filter_cons, hx, ih]

theorem sortByMatchDesc_filter (l : List MatchResult) (k : Int) :
    (sortByMatchDesc l).filter (fun s => decide (s.matchPercentage = k)) =
      l.filter (fun s => decide (s.matchPercentage = k)) := by
  induction l with
  | nil => rfl
  | cons a l ih =>
    simp only [sortByMatchDesc, List.foldr_cons] at *
    rw [filter_insertDesc]
    by_cases ha : a.matchPercentage = k <;> simp [List.filter_cons, ha, ih]

/-- Claim C10: the ranking tie-break is stable with respect to the
candidate order: for every percentage value, the subsequence of the
ranked output at that value equals the subsequence of the
threshold-filtered input at that value, so entries with equal
matchPercentage keep their relative input order. -/
theorem c10_rank_stable (l : List MatchResult) (minPct k : Int) :
    (rank l minPct).filter (fun s => decide (s.matchPercentage = k)) =
      (l.filter (fun s => decide (minPct ≤ s.matchPercentage))).filter
        (fun s => decide (s.matchPercentage = k)) := by
  unfold rank
  exact sortByMatchDesc_filter _ k

/-- Claim C3 (amended): every token produced by the part_001 ingredient
normalizer contains no digit characters and no fraction glyphs; digits
are stripped wherever they appear in the line.  (The unit-vocabulary
clause of the claim fails; see the counterexample.) -/
theorem c3_tokens_have_no_digits (lines : List Str) (tok : Str) (c : Char)
    (htok : tok ∈ extractIngredientNames_p1 lines) (hc : c ∈ tok) :
    digitClass c = false := by
  unfold extractIngredientNames_p1 at htok
  have htok' := List.mem_of_mem_filter htok
  rw [List.mem_map] at htok'
  obtain ⟨line, _, rfl⟩ := htok'
  simp only [cleanLine_p1, collapseWs, stripUnits_p1] at hc
  rcases mem_collapseWsGo _ _ _ hc with h1 | h1
  · have h2 := mem_trimStr h1
    have h3 := List.mem_of_mem_filter h2
    rcases mem_stripUnitsGo _ _ _ h3 with h4 | h4
    · have h5 := List.of_mem_filter h4
      rw [Bool.not_eq_true'] at h5
      exact h5
    · subst h4; decide
  · subst h1; decide

/-- Witness for claim C3: the line with a leading quantity normalizes
to a token, and the letter o of that token is not in the digit class. -/
theorem c3_witness :
    "onions".data ∈ extractIngredientNames_p1 ["2 onions".data] ∧
    'o' ∈ "onions".data ∧ digitClass 'o' = false :=
  ⟨by decide, by decide,
    c3_tokens_have_no_digits ["2 onions".data] "onions".data 'o'
      (by decide) (by decide)⟩

/-- Counterexample to claim C3 as stated: the asterisk-removal stage of
the part_001 normalizer runs after unit stripping, so the line
c-star-u-star-p normalizes to the token cup, which is a seeded unit
word occurring as a whole word. -/
theorem c3_counterexample :
    ¬ (∀ tok ∈ extractIngredientNames_p1 ["c*u*p".data],
        ∀ u ∈ unitAlts_p1, u ∉ wordsOf tok) := by
  decide

/-- Claim C8 (amended): the part_001 unit-stripping stage replaces
every occurrence of a unit-vocabulary word, wherever it appears, even
inside longer words; a line in which no unit word occurs as a substring
at all is left unchanged. -/
theorem c8_no_unit_substring_id (s : Str)
    (h : ∀ u ∈ unitAlts_p1, containsSub s u = false) :
    stripUnits_p1 s = s :=
  stripUnitsGo_id s.length s h

/-- Witness for claim C8: the word rice contains no unit-vocabulary
substring and passes the unit-stripping stage unchanged. -/
theorem c8_witness :
    (∀ u ∈ unitAlts_p1, containsSub "rice".data u = false) ∧
    stripUnits_p1 "rice".data = "rice".data :=
  ⟨by decide, c8_no_unit_substring_id "rice".data (by decide)⟩

/-- Counterexample to claim C8 as stated: the unit regex of part_001
matches its alternatives anywhere, not only at whole words, so the
non-unit word ginger loses both of its g characters in the
unit-stripping stage and does not survive as a word of the output. -/
theorem c8_counterexample :
    ¬ (∀ w ∈ wordsOf "ginger".data, w ∉ unitAlts_p1 →
        w ∈ wordsOf (stripUnits_p1 "ginger".data)) := by
  decide

/-- Claim C6: evaluation of the part_001 full-text post-retrieval
filter pass at a vegan recipe and a vegan-false filter.  The pass keeps
the recipe, because the expression bang-filters-vegan is true when the
filter value is false; the claim states that only recipes with vegan
equal to false are kept. -/
theorem c6_vegan_false_filter_eval :
    fullTextFilterPass_p1 [rVeganTrue]
        (some { vegan := some false, categories := none }) = [rVeganTrue] ∧
    rVeganTrue.vegan = true :=
  ⟨by decide, rfl⟩

/-- Claim C9 (amended): for a non-empty available set,
quickRecipeSuggestions of part_001 returns only recipes with at least
one matching normalized ingredient, with no percentage threshold; the
result is the prefix of the matching candidates of length limit when
the supplied limit is positive, and of length 10 when no limit is
supplied (or, per the counterexample, when the supplied limit is 0). -/
theorem c9_quick_suggestions (db : List Recipe)
    (filters : Option RecipeFilters) (available : List Str)
    (limit : Option Int) (_hav : available ≠ []) :
    (∀ r ∈ quickRecipeSuggestions_p1 db filters available limit,
        hasQuickMatch_p1 available r = true) ∧
    (limit = none →
      quickRecipeSuggestions_p1 db filters available limit =
        (quickMatched_p1 db filters available).take 10) ∧
    (∀ n : Int, limit = some n → 0 < n →
      quickRecipeSuggestions_p1 db filters available limit =
        (quickMatched_p1 db filters available).take n.toNat) := by
  refine ⟨?_, ?_, ?_⟩
  · intro r hr
    have hr' : r ∈ quickMatched_p1 db filters available := by
      unfold quickRecipeSuggestions_p1 jsSliceTo at hr
      split at hr
      · exact List.take_subset _ _ hr
      · exact List.take_subset _ _ hr
    exact List.of_mem_filter hr'
  · intro h
    subst h
    rfl
  · intro n h hn
    subst h
    simp only [quickRecipeSuggestions_p1, jsOrInt, jsSliceTo]
    rw [if_neg hn.ne', if_pos hn.le]

/-- Witness for claim C9: the amended statement applied with no limit
at a concrete store with one matching recipe. -/
theorem c9_witness :
    (["onion".data] : List Str) ≠ [] ∧
    quickRecipeSuggestions_p1 [rOnion] none ["onion".data] none =
      (quickMatched_p1 [rOnion] none ["onion".data]).take 10 :=
  ⟨by decide,
    (c9_quick_suggestions [rOnion] none ["onion".data] none
      (by decide)).2.1 rfl⟩

/-- Counterexample to claim C9 as stated: a caller-supplied limit of 0
is falsy, so limit-or-10 evaluates to 10 and the result is not
truncated to the supplied limit of 0. -/
theorem c9_counterexample :
    quickRecipeSuggestions_p1 [rOnion] none ["onion".data] (some 0) ≠
      (quickMatched_p1 [rOnion] none ["onion".data]).take (Int.toNat 0) := by
  decide
